import Mathlib

/-!
Verification of the neo-reGeorg-rust core against its specification.

The definitions below are a shallow embedding of the Rust sources
(`src/codec.rs`, `src/commands.rs`, `src/session.rs`).  Byte strings are
`List Nat` with elements below 256; Rust `i32` arithmetic is modelled on
`Int` with explicit two's-complement wrapping (release-mode semantics).
-/

namespace NeoGeorg

/-! ## Codec: obfuscated base64 (src/codec.rs)

`EN` is the standard base64 alphabet, `DE` the custom permutation
(`const EN` / `const DE` in `main.rs`, re-used by `codec.rs`).  The Rust
code builds `en_map : EN[i] ↦ DE[i]` and `de_map : DE[i] ↦ EN[i]` and
substitutes each byte, leaving bytes outside the table unchanged. -/

def ENlist : List Nat :=
  [65,66,67,68,69,70,71,72,73,74,75,76,77,78,79,80,81,82,83,84,85,86,87,88,
   89,90,97,98,99,100,101,102,103,104,105,106,107,108,109,110,111,112,113,
   114,115,116,117,118,119,120,121,122,48,49,50,51,52,53,54,55,56,57,43,47]

def DElist : List Nat :=
  [100,104,85,76,78,86,71,115,117,65,107,47,77,120,72,54,105,98,106,99,69,
   102,82,113,68,87,89,122,110,88,66,101,57,80,108,55,43,83,75,111,90,56,
   112,74,97,73,67,103,114,81,79,48,109,70,50,49,121,118,51,52,53,119,116,84]

/-- Index of a byte in a list, mirroring a hash-map lookup built from
distinct keys (first occurrence wins, as in `Codec::build_maps`). -/
def findIdx (c : Nat) : List Nat → Option Nat
  | [] => none
  | x :: xs => if x = c then some 0 else (findIdx c xs).map (· + 1)

/-- Substitute a byte through the table `src[i] ↦ dst[i]`; bytes absent from
`src` pass through unchanged (`unwrap_or(b)` in the Rust code). -/
def subst (src dst : List Nat) (b : Nat) : Nat :=
  match findIdx b src with
  | some i => dst.getD i b
  | none => b

/-- Encoding substitution: `en_map.get(&b).copied().unwrap_or(b)`. -/
def en_sub (b : Nat) : Nat := subst ENlist DElist b

/-- Decoding substitution: `de_map.get(&b).copied().unwrap_or(b)`. -/
def de_sub (b : Nat) : Nat := subst DElist ENlist b

/-- Character of the standard base64 alphabet at a sextet index. -/
def i2c (i : Nat) : Nat := ENlist.getD i 0

/-- Sextet index of a standard-alphabet character, `none` for any byte
outside the alphabet (including the padding byte 61, `=`). -/
def c2i (c : Nat) : Option Nat := findIdx c ENlist

/-- Standard base64 encoding with `=` padding
(`base64::engine::general_purpose::STANDARD.encode`). -/
def b64encode : List Nat → List Nat
  | [] => []
  | [a] => [i2c (a / 4), i2c (a % 4 * 16), 61, 61]
  | [a, b] => [i2c (a / 4), i2c (a % 4 * 16 + b / 16), i2c (b % 16 * 4), 61]
  | a :: b :: c :: rest =>
    i2c (a / 4) :: i2c (a % 4 * 16 + b / 16) :: i2c (b % 16 * 4 + c / 64) ::
      i2c (c % 64) :: b64encode rest

/-- Standard base64 decoding
(`base64::engine::general_purpose::STANDARD.decode`): requires canonical
`=` padding, rejects bytes outside the alphabet, rejects non-zero
trailing bits, and rejects input whose length is not a multiple of 4. -/
def b64decode : List Nat → Option (List Nat)
  | [] => some []
  | c1 :: c2 :: c3 :: c4 :: rest =>
    match c2i c1, c2i c2 with
    | some v1, some v2 =>
      if c3 = 61 then
        if c4 = 61 ∧ rest = [] ∧ v2 % 16 = 0 then
          some [v1 * 4 + v2 / 16]
        else none
      else
        match c2i c3 with
        | some v3 =>
          if c4 = 61 then
            if rest = [] ∧ v3 % 4 = 0 then
              some [v1 * 4 + v2 / 16, v2 % 16 * 16 + v3 / 4]
            else none
          else
            match c2i c4 with
            | some v4 =>
              (b64decode rest).map
                (fun tail => (v1 * 4 + v2 / 16) :: (v2 % 16 * 16 + v3 / 4) ::
                  (v3 % 4 * 64 + v4) :: tail)
            | none => none
        | none => none
    | _, _ => none
  | _ => none

/-- Obfuscated encode, `Codec::base64_encode`: standard base64 then the
alphabet substitution. -/
def base64_encode (rawdata : List Nat) : List Nat :=
  (b64encode rawdata).map en_sub

/-- Obfuscated decode, `Codec::base64_decode`: inverse substitution then
standard base64 decoding. -/
def base64_decode (data : List Nat) : Option (List Nat) :=
  b64decode (data.map de_sub)

/-! ### Round-trip of the obfuscated base64 (claim C1) -/

lemma c2i_i2c : ∀ i < 64, c2i (i2c i) = some i := by decide

lemma i2c_ne_pad : ∀ i < 64, i2c i ≠ 61 := by decide

lemma i2c_lt (i : Nat) : i2c i < 256 := by
  rcases Nat.lt_or_ge i 64 with h | h
  · exact (by decide : ∀ j < 64, i2c j < 256) i h
  · have hnone : ENlist[i]? = none := by
      apply List.getElem?_eq_none
      simp only [ENlist, List.length_cons, List.length_nil]
      omega
    simp [i2c, List.getD, hnone]

set_option maxRecDepth 8000 in
lemma de_en_sub : ∀ b < 256, de_sub (en_sub b) = b := by decide

lemma b64encode_lt (x : List Nat) : ∀ y ∈ b64encode x, y < 256 := by
  induction x using b64encode.induct with
  | case1 => simp [b64encode]
  | case2 a =>
    intro y hy
    simp only [b64encode, List.mem_cons, List.not_mem_nil, or_false] at hy
    rcases hy with h | h | h | h <;> subst h <;> first | exact i2c_lt _ | omega
  | case3 a b =>
    intro y hy
    simp only [b64encode, List.mem_cons, List.not_mem_nil, or_false] at hy
    rcases hy with h | h | h | h <;> subst h <;> first | exact i2c_lt _ | omega
  | case4 a b c rest ih =>
    intro y hy
    simp only [b64encode, List.mem_cons] at hy
    rcases hy with h | h | h | h | h
    · subst h; exact i2c_lt _
    · subst h; exact i2c_lt _
    · subst h; exact i2c_lt _
    · subst h; exact i2c_lt _
    · exact ih y h

lemma b64_roundtrip (x : List Nat) (hx : ∀ b ∈ x, b < 256) :
    b64decode (b64encode x) = some x := by
  induction x using b64encode.induct with
  | case1 => rfl
  | case2 a =>
    have ha : a < 256 := hx a (by simp)
    have h1 : a / 4 < 64 := by omega
    have h2 : a % 4 * 16 < 64 := by omega
    simp only [b64encode, b64decode, c2i_i2c _ h1, c2i_i2c _ h2]
    have e0 : a % 4 * 16 % 16 = 0 := by omega
    simp [e0]
    omega
  | case3 a b =>
    have ha : a < 256 := hx a (by simp)
    have hb : b < 256 := hx b (by simp)
    have h1 : a / 4 < 64 := by omega
    have h2 : a % 4 * 16 + b / 16 < 64 := by omega
    have h3 : b % 16 * 4 < 64 := by omega
    simp only [b64encode, b64decode, c2i_i2c _ h1, c2i_i2c _ h2, c2i_i2c _ h3]
    rw [if_neg (i2c_ne_pad _ h3)]
    have e0 : b % 16 * 4 % 4 = 0 := by omega
    simp [e0]
    omega
  | case4 a b c rest ih =>
    have ha : a < 256 := hx a (by simp)
    have hb : b < 256 := hx b (by simp)
    have hc : c < 256 := hx c (by simp)
    have hrest : ∀ y ∈ rest, y < 256 := fun y hy => hx y (by simp [hy])
    have h1 : a / 4 < 64 := by omega
    have h2 : a % 4 * 16 + b / 16 < 64 := by omega
    have h3 : b % 16 * 4 + c / 64 < 64 := by omega
    have h4 : c % 64 < 64 := by omega
    simp only [b64encode, b64decode, c2i_i2c _ h1, c2i_i2c _ h2, c2i_i2c _ h3,
      c2i_i2c _ h4]
    rw [if_neg (i2c_ne_pad _ h3), if_neg (i2c_ne_pad _ h4), ih hrest]
    simp
    omega

lemma map_id_of_mem {l : List Nat} {f : Nat → Nat} (h : ∀ a ∈ l, f a = a) :
    l.map f = l := by
  induction l with
  | nil => rfl
  | cons x xs ih =>
    have hx := h x (List.mem_cons_self x xs)
    have hxs := ih (fun a ha => h a (List.mem_cons_of_mem x ha))
    simp [hx, hxs]

/-- C1: for every byte string `x`, `base64_decode (base64_encode x)` returns
`Ok x`: the obfuscated encode applies standard base64 then the
custom-alphabet substitution, and the decode inverts the substitution and
then applies standard base64 decoding. -/
theorem base64_encode_decode_roundtrip (x : List Nat) (hx : ∀ b ∈ x, b < 256) :
    base64_decode (base64_encode x) = some x := by
  unfold base64_decode base64_encode
  rw [List.map_map]
  have hmap : (b64encode x).map (de_sub ∘ en_sub) = b64encode x :=
    map_id_of_mem (fun a ha => de_en_sub a (b64encode_lt x a ha))
  rw [hmap]
  exact b64_roundtrip x hx

/-- Witness for `base64_encode_decode_roundtrip` at the concrete byte
string `[72, 105, 33]`. -/
theorem base64_encode_decode_roundtrip_witness :
    base64_decode (base64_encode [72, 105, 33]) = some [72, 105, 33] :=
  base64_encode_decode_roundtrip [72, 105, 33] (by decide)

/-! ## Codec: BLV (tag-length-value) frames

`Codec::blv_encode` iterates a `HashMap<i32, Vec<u8>>` and emits, per
entry, one tag byte (`b as u8`), the big-endian `i32` biased length
(`v.len() as i32 + BLV_OFFSET`), and the value bytes.  `Codec::blv_decode`
loops: read a tag byte, read the length via `read_and_decode_length`
(break on fewer than 4 remaining bytes or negative decoded length), break
when the value would overrun the buffer, otherwise insert and advance.
`i32` arithmetic wraps (release-mode Rust semantics). -/

def BLV_OFFSET : Int := 1966546385

/-- Two's-complement wrap into the `i32` range `[-2^31, 2^31)`. -/
def i32wrap (n : Int) : Int := (n + 2147483648) % 4294967296 - 2147483648

/-- Big-endian byte serialization of an `i32` (`i32::to_be_bytes`). -/
def i32ToBeBytes (n : Int) : List Nat :=
  [(n % 4294967296).toNat / 16777216 % 256,
   (n % 4294967296).toNat / 65536 % 256,
   (n % 4294967296).toNat / 256 % 256,
   (n % 4294967296).toNat % 256]

/-- Big-endian deserialization of an `i32` (`i32::from_be_bytes`). -/
def i32FromBeBytes (b1 b2 b3 b4 : Nat) : Int :=
  i32wrap (Int.ofNat (b1 * 16777216 + b2 * 65536 + b3 * 256 + b4))

/-- The `BlvMap = HashMap<i32, Vec<u8>>` of the Rust code, modelled as an
association list: an insert conses in front and `alGet` takes the first
(most recent) entry for a key. -/
abbrev BlvMap := List (Int × List Nat)

/-- Map lookup, `HashMap::get`. -/
def alGet : BlvMap → Int → Option (List Nat)
  | [], _ => none
  | p :: t, k => if p.1 = k then some p.2 else alGet t k

/-- One encoded record: tag byte `b as u8`, biased big-endian length, then
the value bytes. -/
def encodeRecord (k : Int) (v : List Nat) : List Nat :=
  (k % 256).toNat :: i32ToBeBytes (i32wrap ((v.length : Int) + BLV_OFFSET)) ++ v

/-- `Codec::blv_encode` restricted to a given iteration sequence `l` of the
map entries.  The HashMap iteration order is unspecified, so theorems
quantify over `l`; the two random-padding entries that `blv_encode` inserts
at tags 0 and 39 appear as explicit entries of `l`. -/
def blv_encodeList : BlvMap → List Nat
  | [] => []
  | p :: t => encodeRecord p.1 p.2 ++ blv_encodeList t

/-- One iteration of the `Codec::blv_decode` loop: read the tag byte and
the biased length, then slice the value.  `none` mirrors every `break` of
the loop: fewer than five bytes remain, the decoded length is negative, or
the value would overrun the buffer. -/
def blv_decodeStep : List Nat → Option (Int × List Nat × List Nat)
  | t :: b1 :: b2 :: b3 :: b4 :: rest =>
    let l := i32wrap (i32FromBeBytes b1 b2 b3 b4 - BLV_OFFSET)
    if 0 ≤ l ∧ l.toNat ≤ rest.length then
      some ((t : Int), rest.take l.toNat, rest.drop l.toNat)
    else none
  | _ => none

/-- Each successful decode iteration strictly shrinks the remaining
buffer (the cursor advances by at least five bytes). -/
lemma blv_decodeStep_shrinks (data : List Nat) (k : Int) (v rest : List Nat)
    (h : blv_decodeStep data = some (k, v, rest)) :
    rest.length < data.length := by
  match data with
  | [] => simp [blv_decodeStep] at h
  | [_] => simp [blv_decodeStep] at h
  | [_, _] => simp [blv_decodeStep] at h
  | [_, _, _] => simp [blv_decodeStep] at h
  | [_, _, _, _] => simp [blv_decodeStep] at h
  | t :: b1 :: b2 :: b3 :: b4 :: r =>
    simp only [blv_decodeStep] at h
    split at h
    · simp only [Option.some.injEq, Prod.mk.injEq] at h
      obtain ⟨-, -, h3⟩ := h
      subst h3
      simp only [List.length_drop, List.length_cons]
      omega
    · exact absurd h (by simp)

/-- The decode loop.  The fuel is an iteration bound (each iteration
consumes at least five bytes); `blv_decode` passes `data.length`, and
`blv_decodeAux_eq` below shows any sufficient fuel gives the same result. -/
def blv_decodeLoop : Nat → List Nat → BlvMap → BlvMap
  | _, [], acc => acc
  | 0, _ :: _, acc => acc
  | f + 1, d :: ds, acc =>
    match blv_decodeStep (d :: ds) with
    | some (k, v, rest) => blv_decodeLoop f rest ((k, v) :: acc)
    | none => acc

/-- The `blv_decode` loop with an explicit accumulated map. -/
def blv_decodeAux (data : List Nat) (acc : BlvMap) : BlvMap :=
  blv_decodeLoop data.length data acc

/-- `Codec::blv_decode`. -/
def blv_decode (data : List Nat) : BlvMap := blv_decodeAux data []

lemma blv_decodeLoop_fuel (f : Nat) :
    ∀ (g : Nat) (data : List Nat) (acc : BlvMap),
      data.length ≤ f → data.length ≤ g →
      blv_decodeLoop f data acc = blv_decodeLoop g data acc := by
  induction f with
  | zero =>
    intro g data acc hf _
    match data with
    | [] => cases g <;> rfl
    | d :: ds => simp at hf
  | succ f ih =>
    intro g data acc hf hg
    match data with
    | [] => cases g <;> rfl
    | d :: ds =>
      obtain ⟨g', rfl⟩ : ∃ g', g = g' + 1 := ⟨g - 1, by simp at hg; omega⟩
      simp only [blv_decodeLoop]
      cases hstep : blv_decodeStep (d :: ds) with
      | none => rfl
      | some kvr =>
        obtain ⟨k, v, rest⟩ := kvr
        have hlt := blv_decodeStep_shrinks _ _ _ _ hstep
        simp only [List.length_cons] at hlt hf hg
        exact ih g' rest _ (by omega) (by omega)

/-- Unfolding equation for `blv_decodeAux`: one loop iteration. -/
lemma blv_decodeAux_eq (data : List Nat) (acc : BlvMap) :
    blv_decodeAux data acc =
      match blv_decodeStep data with
      | some (k, v, rest) => blv_decodeAux rest ((k, v) :: acc)
      | none => acc := by
  cases data with
  | nil => rfl
  | cons d ds =>
    unfold blv_decodeAux
    simp only [List.length_cons, blv_decodeLoop]
    cases hstep : blv_decodeStep (d :: ds) with
    | none => rfl
    | some kvr =>
      obtain ⟨k, v, rest⟩ := kvr
      have hlt := blv_decodeStep_shrinks _ _ _ _ hstep
      simp only [List.length_cons] at hlt
      exact blv_decodeLoop_fuel ds.length rest.length rest _ (by omega) le_rfl

/-! ### Decoding a well-formed record stream -/

/-- Decoding at the head of a full record reads back exactly the tag byte
(`key mod 256`), the value, and the bytes after the record, provided the
value fits the `i32` length field. -/
lemma byte_recomp (u : Nat) (hu : u < 4294967296) :
    u / 16777216 % 256 * 16777216 + u / 65536 % 256 * 65536 +
      u / 256 % 256 * 256 + u % 256 = u := by omega

/-- Reading back the four big-endian bytes of an in-range `i32` is the
identity. -/
lemma i32FromBeBytes_i32ToBeBytes (w : Int) (h1 : -2147483648 ≤ w)
    (h2 : w < 2147483648) :
    i32FromBeBytes ((w % 4294967296).toNat / 16777216 % 256)
      ((w % 4294967296).toNat / 65536 % 256)
      ((w % 4294967296).toNat / 256 % 256) ((w % 4294967296).toNat % 256) = w := by
  have hu : (w % 4294967296).toNat < 4294967296 := by omega
  unfold i32FromBeBytes
  rw [byte_recomp _ hu]
  have hcast : Int.ofNat (w % 4294967296).toNat = w % 4294967296 := by
    rw [Int.ofNat_eq_natCast]
    omega
  rw [hcast]
  unfold i32wrap
  omega

/-- The biased length bytes written by `encodeRecord` decode back to the
value length (release-mode wrapping `i32` arithmetic cancels). -/
lemma decode_len_of_record (v : List Nat) (hv : (v.length : Int) < 2147483648) :
    i32wrap (i32FromBeBytes
      ((i32wrap ((v.length : Int) + BLV_OFFSET) % 4294967296).toNat / 16777216 % 256)
      ((i32wrap ((v.length : Int) + BLV_OFFSET) % 4294967296).toNat / 65536 % 256)
      ((i32wrap ((v.length : Int) + BLV_OFFSET) % 4294967296).toNat / 256 % 256)
      ((i32wrap ((v.length : Int) + BLV_OFFSET) % 4294967296).toNat % 256)
      - BLV_OFFSET) = (v.length : Int) := by
  have hwb : -2147483648 ≤ i32wrap ((v.length : Int) + BLV_OFFSET) ∧
      i32wrap ((v.length : Int) + BLV_OFFSET) < 2147483648 := by
    unfold i32wrap
    omega
  rw [i32FromBeBytes_i32ToBeBytes (i32wrap ((v.length : Int) + BLV_OFFSET))
    hwb.1 hwb.2]
  unfold i32wrap BLV_OFFSET
  omega

lemma blv_decodeStep_record (k : Int) (v rest : List Nat)
    (hv : (v.length : Int) < 2147483648) :
    blv_decodeStep (encodeRecord k v ++ rest) = some (k % 256, v, rest) := by
  have hL := decode_len_of_record v hv
  have htag : (((k % 256).toNat : Nat) : Int) = k % 256 :=
    Int.toNat_of_nonneg (Int.emod_nonneg k (by norm_num))
  have hcast : ((v.length : Int)).toNat = v.length := by omega
  simp only [encodeRecord, i32ToBeBytes, List.cons_append, List.nil_append]
  simp only [blv_decodeStep, hL]
  rw [if_pos ⟨by omega, by rw [hcast]; simp [List.length_append]⟩]
  rw [hcast, List.take_left, List.drop_left, htag]

/-- Value of the last entry of `l` whose tag byte (`key mod 256`) is `k`.
Decoding the concatenation of `l`'s records yields exactly this map
(later records overwrite earlier ones in the HashMap). -/
def lastTagLookup : BlvMap → Int → Option (List Nat)
  | [], _ => none
  | p :: t, k =>
    match lastTagLookup t k with
    | some v => some v
    | none => if p.1 % 256 = k then some p.2 else none

lemma alGet_decodeAux_encodeList (l : BlvMap) :
    ∀ (acc : BlvMap) (k : Int), (∀ p ∈ l, ((p.2).length : Int) < 2147483648) →
      alGet (blv_decodeAux (blv_encodeList l) acc) k =
        match lastTagLookup l k with
        | some v => some v
        | none => alGet acc k := by
  induction l with
  | nil =>
    intro acc k _
    simp [blv_encodeList, blv_decodeAux, blv_decodeLoop, lastTagLookup]
  | cons p t ih =>
    intro acc k hlen
    have hrec := blv_decodeStep_record p.1 p.2 (blv_encodeList t) (hlen p (by simp))
    rw [blv_encodeList, blv_decodeAux_eq, hrec]
    dsimp only
    rw [ih ((p.1 % 256, p.2) :: acc) k (fun q hq => hlen q (by simp [hq]))]
    simp only [lastTagLookup]
    cases lastTagLookup t k with
    | some v => rfl
    | none => by_cases hpk : p.1 % 256 = k <;> simp [alGet, hpk]

/-- Lookup in the decoded map of a well-formed record stream. -/
lemma alGet_blv_decode_encodeList (l : BlvMap) (k : Int)
    (hlen : ∀ p ∈ l, ((p.2).length : Int) < 2147483648) :
    alGet (blv_decode (blv_encodeList l)) k = lastTagLookup l k := by
  unfold blv_decode
  rw [alGet_decodeAux_encodeList l [] k hlen]
  cases lastTagLookup l k <;> simp [alGet]

lemma lastTagLookup_mem (l : BlvMap) (k : Int) (v : List Nat)
    (h : lastTagLookup l k = some v) : ∃ p ∈ l, p.1 % 256 = k ∧ p.2 = v := by
  induction l with
  | nil => simp [lastTagLookup] at h
  | cons p t ih =>
    simp only [lastTagLookup] at h
    cases htail : lastTagLookup t k with
    | some w =>
      rw [htail] at h
      obtain ⟨q, hq, hqk, hqv⟩ := ih (htail.trans (by injection h with h'; rw [h']))
      exact ⟨q, List.mem_cons_of_mem p hq, hqk, hqv⟩
    | none =>
      rw [htail] at h
      by_cases hpk : p.1 % 256 = k
      · rw [if_pos hpk] at h
        injection h with h'
        exact ⟨p, List.mem_cons_self p t, hpk, h'⟩
      · rw [if_neg hpk] at h
        exact absurd h (by simp)

lemma lastTagLookup_of_mem (l : BlvMap) (p : Int × List Nat)
    (hnd : (l.map (fun q => q.1 % 256)).Nodup) (hp : p ∈ l) :
    lastTagLookup l (p.1 % 256) = some p.2 := by
  induction l with
  | nil => simp at hp
  | cons q t ih =>
    simp only [List.map_cons, List.nodup_cons] at hnd
    rcases List.mem_cons.mp hp with rfl | hpt
    · simp only [lastTagLookup]
      cases htail : lastTagLookup t (p.1 % 256) with
      | some w =>
        obtain ⟨r, hr, hrk, -⟩ := lastTagLookup_mem t _ _ htail
        exact absurd (hrk ▸ List.mem_map_of_mem (fun q => q.1 % 256) hr) hnd.1
      | none => simp
    · simp only [lastTagLookup, ih hnd.2 hpt]

lemma lastTagLookup_eq_none (l : BlvMap) (k : Int)
    (h : ∀ p ∈ l, p.1 % 256 ≠ k) : lastTagLookup l k = none := by
  induction l with
  | nil => rfl
  | cons p t ih =>
    simp only [lastTagLookup, ih (fun q hq => h q (List.mem_cons_of_mem p hq))]
    rw [if_neg (h p (List.mem_cons_self p t))]

lemma lastTagLookup_ne_none_of_mem (l : BlvMap) (p : Int × List Nat)
    (hp : p ∈ l) : lastTagLookup l (p.1 % 256) ≠ none := by
  induction l with
  | nil => simp at hp
  | cons q t ih =>
    simp only [lastTagLookup]
    rcases List.mem_cons.mp hp with rfl | hpt
    · cases htail : lastTagLookup t (p.1 % 256) <;> simp
    · cases htail : lastTagLookup t (p.1 % 256) with
      | some w => simp
      | none => exact absurd htail (ih hpt)

lemma alGet_mem (m : BlvMap) (k : Int) (v : List Nat)
    (h : alGet m k = some v) : (k, v) ∈ m := by
  induction m with
  | nil => simp [alGet] at h
  | cons p t ih =>
    simp only [alGet] at h
    by_cases hpk : p.1 = k
    · rw [if_pos hpk] at h
      injection h with h'
      exact List.mem_cons.mpr (Or.inl (by rw [← hpk, ← h']))
    · rw [if_neg hpk] at h
      exact List.mem_cons_of_mem p (ih h)

lemma alGet_none_not_mem (m : BlvMap) (k : Int)
    (h : alGet m k = none) : ∀ v, (k, v) ∉ m := by
  induction m with
  | nil => simp
  | cons p t ih =>
    simp only [alGet] at h
    by_cases hpk : p.1 = k
    · rw [if_pos hpk] at h
      exact absurd h (by simp)
    · rw [if_neg hpk] at h
      intro v hv
      rcases List.mem_cons.mp hv with heq | hvt
      · exact hpk (by rw [← heq])
      · exact ih h v hvt

lemma alGet_of_mem (m : BlvMap) (p : Int × List Nat)
    (hnd : (m.map Prod.fst).Nodup) (hp : p ∈ m) : alGet m p.1 = some p.2 := by
  induction m with
  | nil => simp at hp
  | cons q t ih =>
    simp only [List.map_cons, List.nodup_cons] at hnd
    simp only [alGet]
    rcases List.mem_cons.mp hp with rfl | hpt
    · rw [if_pos rfl]
    · rw [if_neg ?_]
      · exact ih hnd.2 hpt
      · intro hq
        exact hnd.1 (hq ▸ List.mem_map_of_mem Prod.fst hpt)

/-! ### Truncation behaviour of the decode loop -/

lemma blv_decodeStep_none_of_short (data : List Nat) (h : data.length < 5) :
    blv_decodeStep data = none := by
  match data with
  | [] => rfl
  | [_] => rfl
  | [_, _] => rfl
  | [_, _, _] => rfl
  | [_, _, _, _] => rfl
  | _ :: _ :: _ :: _ :: _ :: _ =>
    simp only [List.length_cons] at h
    omega

lemma length_encodeRecord (k : Int) (v : List Nat) :
    (encodeRecord k v).length = 5 + v.length := by
  simp [encodeRecord, i32ToBeBytes]
  omega

/-- Decoding a strict prefix of a single record fails the bounds check
and stops. -/
lemma blv_decodeStep_cut (k : Int) (v : List Nat) (j : Nat)
    (hv : (v.length : Int) < 2147483648) (hj : j < (encodeRecord k v).length) :
    blv_decodeStep ((encodeRecord k v).take j) = none := by
  rw [length_encodeRecord] at hj
  rcases Nat.lt_or_ge j 5 with h5 | h5
  · apply blv_decodeStep_none_of_short
    simp only [List.length_take]
    omega
  · obtain ⟨j', rfl⟩ : ∃ j', j = j' + 5 := ⟨j - 5, by omega⟩
    have hL := decode_len_of_record v hv
    simp only [encodeRecord, i32ToBeBytes, List.cons_append, List.nil_append,
      List.take_succ_cons]
    simp only [blv_decodeStep, hL]
    rw [if_neg]
    intro hc
    have h2 := hc.2
    simp only [List.length_take] at h2
    omega

/-- Decoding any prefix of a record stream decodes a prefix of the
records: the cut record (if any) is dropped gracefully. -/
lemma blv_decodeAux_take (l : BlvMap) :
    ∀ (j : Nat) (acc : BlvMap), (∀ p ∈ l, ((p.2).length : Int) < 2147483648) →
      ∃ i, i ≤ l.length ∧ blv_decodeAux ((blv_encodeList l).take j) acc =
        blv_decodeAux (blv_encodeList (l.take i)) acc := by
  induction l with
  | nil =>
    intro j acc _
    exact ⟨0, le_rfl, by simp [blv_encodeList]⟩
  | cons p t ih =>
    intro j acc hlen
    rcases Nat.lt_or_ge j (encodeRecord p.1 p.2).length with hj | hj
    · refine ⟨0, by simp, ?_⟩
      have h0 : j - (encodeRecord p.1 p.2).length = 0 := by omega
      have htake : (blv_encodeList (p :: t)).take j =
          (encodeRecord p.1 p.2).take j := by
        rw [blv_encodeList, List.take_append_eq_append_take, h0]
        simp
      rw [htake, blv_decodeAux_eq,
        blv_decodeStep_cut p.1 p.2 j (hlen p (by simp)) hj]
      simp [blv_decodeAux, blv_encodeList, blv_decodeLoop]
    · obtain ⟨i, hi, heq⟩ := ih (j - (encodeRecord p.1 p.2).length)
        ((p.1 % 256, p.2) :: acc) (fun q hq => hlen q (by simp [hq]))
      refine ⟨i + 1, by simpa using Nat.succ_le_succ hi, ?_⟩
      have htake : (blv_encodeList (p :: t)).take j = encodeRecord p.1 p.2 ++
          (blv_encodeList t).take (j - (encodeRecord p.1 p.2).length) := by
        rw [blv_encodeList, List.take_append_eq_append_take,
          List.take_of_length_le hj]
      have hR : blv_decodeAux (blv_encodeList ((p :: t).take (i + 1))) acc =
          blv_decodeAux (blv_encodeList (t.take i)) ((p.1 % 256, p.2) :: acc) := by
        rw [List.take_succ_cons, blv_encodeList, blv_decodeAux_eq,
          blv_decodeStep_record p.1 p.2 _ (hlen p (by simp))]
      rw [htake, blv_decodeAux_eq,
        blv_decodeStep_record p.1 p.2 _ (hlen p (by simp))]
      dsimp only
      rw [heq]
      exact hR.symm

/-! ### Claims C2, C6, C9, C10 -/

/-- C2 counterexample: the claim quantifies over every map of integer tags,
but `blv_encode` truncates the tag to one byte (`b as u8`).  For the map
`{300 ↦ [1]}` (with concrete random padding at tags 0 and 39), the decoded
map has no entry at key 300, while the claim demands the original entry
`300 ↦ [1]` to survive the round trip. -/
theorem blv_roundtrip_counterexample :
    alGet (blv_decode (blv_encodeList
      [((0 : Int), [0, 0, 0, 0, 0]), ((39 : Int), [0, 0, 0, 0, 0]),
       ((300 : Int), [1])])) 300 = none ∧
    alGet [((300 : Int), [1])] 300 = some [1] := by decide

/-- C2 (amended): for every map `m` whose keys lie in `[0, 256)` and avoid
0 and 39, and whose values are shorter than `2^31` bytes (so the `i32`
length field is faithful), decoding an encoding of `m` — for any iteration
order `l` of the map extended by the two random-padding entries — yields
exactly `m` plus entries at 0 and 39 whose values have length in `[5, 20)`.
The padding lengths are hypotheses, mirroring `rand_byte`'s range
`random_range(5..20)`. -/
theorem blv_encode_decode_roundtrip (m : BlvMap) (r0 r39 : List Nat)
    (l : BlvMap)
    (hperm : l.Perm (((0 : Int), r0) :: ((39 : Int), r39) :: m))
    (hnodup : ((((0 : Int), r0) :: ((39 : Int), r39) :: m).map Prod.fst).Nodup)
    (hkeys : ∀ p ∈ m, 0 ≤ p.1 ∧ p.1 < 256)
    (hlen : ∀ p ∈ m, ((p.2).length : Int) < 2147483648)
    (hr0 : 5 ≤ r0.length ∧ r0.length < 20)
    (hr39 : 5 ≤ r39.length ∧ r39.length < 20) :
    alGet (blv_decode (blv_encodeList l)) 0 = some r0 ∧
    alGet (blv_decode (blv_encodeList l)) 39 = some r39 ∧
    (5 ≤ r0.length ∧ r0.length < 20) ∧
    (5 ≤ r39.length ∧ r39.length < 20) ∧
    ∀ k : Int, k ≠ 0 → k ≠ 39 →
      alGet (blv_decode (blv_encodeList l)) k = alGet m k := by
  have hmem : ∀ p, p ∈ l ↔ p ∈ ((0 : Int), r0) :: ((39 : Int), r39) :: m :=
    fun p => hperm.mem_iff
  have hkeysl : ∀ p ∈ l, 0 ≤ p.1 ∧ p.1 < 256 := by
    intro p hp
    rcases List.mem_cons.mp ((hmem p).mp hp) with rfl | hp'
    · norm_num
    rcases List.mem_cons.mp hp' with rfl | hp''
    · norm_num
    · exact hkeys p hp''
  have hlenl : ∀ p ∈ l, ((p.2).length : Int) < 2147483648 := by
    intro p hp
    rcases List.mem_cons.mp ((hmem p).mp hp) with rfl | hp'
    · simp only
      omega
    rcases List.mem_cons.mp hp' with rfl | hp''
    · simp only
      omega
    · exact hlen p hp''
  have hmodnd : (l.map (fun q => q.1 % 256)).Nodup := by
    have hcongr : (((0 : Int), r0) :: ((39 : Int), r39) :: m).map
        (fun q => q.1 % 256) =
        (((0 : Int), r0) :: ((39 : Int), r39) :: m).map Prod.fst := by
      apply List.map_congr_left
      intro p hp
      rcases List.mem_cons.mp hp with rfl | hp'
      · norm_num
      rcases List.mem_cons.mp hp' with rfl | hp''
      · norm_num
      · exact Int.emod_eq_of_lt (hkeys p hp'').1 (hkeys p hp'').2
    rw [(hperm.map (fun q => q.1 % 256)).nodup_iff, hcongr]
    exact hnodup
  have h0 : alGet (blv_decode (blv_encodeList l)) 0 = some r0 := by
    rw [alGet_blv_decode_encodeList l 0 hlenl]
    have := lastTagLookup_of_mem l ((0 : Int), r0) hmodnd
      ((hmem _).mpr (List.mem_cons_self _ _))
    simpa using this
  have h39 : alGet (blv_decode (blv_encodeList l)) 39 = some r39 := by
    rw [alGet_blv_decode_encodeList l 39 hlenl]
    have := lastTagLookup_of_mem l ((39 : Int), r39) hmodnd
      ((hmem _).mpr (List.mem_cons_of_mem _ (List.mem_cons_self _ _)))
    simpa using this
  refine ⟨h0, h39, hr0, hr39, ?_⟩
  intro k hk0 hk39
  rw [alGet_blv_decode_encodeList l k hlenl]
  cases halg : alGet m k with
  | some v =>
    have hkv : (k, v) ∈ m := alGet_mem m k v halg
    have hkr := hkeys (k, v) hkv
    have := lastTagLookup_of_mem l ((k, v)) hmodnd
      ((hmem _).mpr (List.mem_cons_of_mem _ (List.mem_cons_of_mem _ hkv)))
    simpa [Int.emod_eq_of_lt hkr.1 hkr.2] using this
  | none =>
    apply lastTagLookup_eq_none
    intro p hp
    rcases List.mem_cons.mp ((hmem p).mp hp) with rfl | hp'
    · simpa using Ne.symm hk0
    rcases List.mem_cons.mp hp' with rfl | hp''
    · simp only
      intro hc
      exact hk39 (by omega)
    · have hkr := hkeys p hp''
      rw [Int.emod_eq_of_lt hkr.1 hkr.2]
      intro hc
      exact alGet_none_not_mem m k halg p.2 (by rw [← hc]; exact hp'')


/-- Witness for `blv_encode_decode_roundtrip` at the concrete map
`{7 ↦ [9]}` with padding values of length 5. -/
theorem blv_encode_decode_roundtrip_witness :
    alGet (blv_decode (blv_encodeList
      [((0 : Int), [0, 0, 0, 0, 0]), ((39 : Int), [1, 1, 1, 1, 1]),
       ((7 : Int), [9])])) 0 = some [0, 0, 0, 0, 0] ∧
    alGet (blv_decode (blv_encodeList
      [((0 : Int), [0, 0, 0, 0, 0]), ((39 : Int), [1, 1, 1, 1, 1]),
       ((7 : Int), [9])])) 39 = some [1, 1, 1, 1, 1] ∧
    alGet (blv_decode (blv_encodeList
      [((0 : Int), [0, 0, 0, 0, 0]), ((39 : Int), [1, 1, 1, 1, 1]),
       ((7 : Int), [9])])) 7 = some [9] := by
  have h := blv_encode_decode_roundtrip [((7 : Int), [9])]
    [0, 0, 0, 0, 0] [1, 1, 1, 1, 1]
    [((0 : Int), [0, 0, 0, 0, 0]), ((39 : Int), [1, 1, 1, 1, 1]),
     ((7 : Int), [9])]
    (List.Perm.refl _) (by decide) (by decide) (by decide) (by decide)
    (by decide)
  refine ⟨h.1, h.2.1, ?_⟩
  rw [h.2.2.2.2 7 (by decide) (by decide)]
  decide

/-- C6 counterexample: the subset property of truncated decodes fails for
encodings of maps whose distinct `i32` keys collide modulo 256.  For the
map `{1 ↦ [10], 257 ↦ [20]}` (with concrete padding entries), cutting the
encoding right before the final record leaves the entry `1 ↦ [10]`,
whereas the full decode maps tag 1 to `[20]` — so the truncated decode is
not a subset of the full one. -/
theorem blv_truncation_counterexample :
    (blv_encodeList [((0 : Int), [0, 0, 0, 0, 0]), ((39 : Int), [0, 0, 0, 0, 0]),
       ((1 : Int), [10]), ((257 : Int), [20])]).length - 6 <
      (blv_encodeList [((0 : Int), [0, 0, 0, 0, 0]), ((39 : Int), [0, 0, 0, 0, 0]),
       ((1 : Int), [10]), ((257 : Int), [20])]).length ∧
    alGet (blv_decode ((blv_encodeList
      [((0 : Int), [0, 0, 0, 0, 0]), ((39 : Int), [0, 0, 0, 0, 0]),
       ((1 : Int), [10]), ((257 : Int), [20])]).take
        ((blv_encodeList [((0 : Int), [0, 0, 0, 0, 0]), ((39 : Int), [0, 0, 0, 0, 0]),
          ((1 : Int), [10]), ((257 : Int), [20])]).length - 6))) 1 = some [10] ∧
    alGet (blv_decode (blv_encodeList
      [((0 : Int), [0, 0, 0, 0, 0]), ((39 : Int), [0, 0, 0, 0, 0]),
       ((1 : Int), [10]), ((257 : Int), [20])])) 1 = some [20] := by decide

/-- C6 (amended): `blv_decode` never errors — whenever the loop step fails
(fewer than five bytes, negative decoded length, or value overrun) it
returns the map built so far; and for an encoding of a map whose keys all
lie in `[0, 256)` (so that distinct `i32` keys have distinct tag bytes),
decoding any strict prefix yields a submap of the full decoding. -/
theorem blv_decode_truncation (l : BlvMap) (j : Nat)
    (hkeys : ∀ p ∈ l, 0 ≤ p.1 ∧ p.1 < 256)
    (hnodup : (l.map Prod.fst).Nodup)
    (hlen : ∀ p ∈ l, ((p.2).length : Int) < 2147483648)
    (hj : j < (blv_encodeList l).length) :
    (∀ (data : List Nat) (acc : BlvMap), blv_decodeStep data = none →
      blv_decodeAux data acc = acc) ∧
    (∀ (k : Int) (v : List Nat),
      alGet (blv_decode ((blv_encodeList l).take j)) k = some v →
      alGet (blv_decode (blv_encodeList l)) k = some v) := by
  constructor
  · intro data acc hstep
    rw [blv_decodeAux_eq, hstep]
  · intro k v h
    have hmodnd : (l.map (fun q => q.1 % 256)).Nodup := by
      have hcongr : l.map (fun q => q.1 % 256) = l.map Prod.fst :=
        List.map_congr_left (fun p hp =>
          Int.emod_eq_of_lt (hkeys p hp).1 (hkeys p hp).2)
      rw [hcongr]
      exact hnodup
    obtain ⟨i, hi, heq⟩ := blv_decodeAux_take l j [] hlen
    rw [blv_decode, heq] at h
    have hlen2 : ∀ p ∈ l.take i, ((p.2).length : Int) < 2147483648 :=
      fun p hp => hlen p (List.mem_of_mem_take hp)
    rw [show blv_decodeAux (blv_encodeList (l.take i)) [] =
        blv_decode (blv_encodeList (l.take i)) from rfl,
      alGet_blv_decode_encodeList _ k hlen2] at h
    obtain ⟨p, hp, hpk, hpv⟩ := lastTagLookup_mem _ k v h
    rw [alGet_blv_decode_encodeList l k hlen, ← hpk, ← hpv]
    exact lastTagLookup_of_mem l p hmodnd (List.mem_of_mem_take hp)

/-- Witness for `blv_decode_truncation`: cutting the two-record encoding of
`{1 ↦ [10], 2 ↦ [20]}` after the first record keeps the entry `1 ↦ [10]`
in the full decoding. -/
theorem blv_decode_truncation_witness :
    alGet (blv_decode (blv_encodeList [((1 : Int), [10]), ((2 : Int), [20])]))
      1 = some [10] :=
  (blv_decode_truncation [((1 : Int), [10]), ((2 : Int), [20])] 6
    (by decide) (by decide) (by decide) (by decide)).2 1 [10] (by decide)

/-- C9: the `blv_decode` loop terminates on every input: each successful
iteration strictly shrinks the remaining buffer (the cursor advances by at
least five bytes), and every failing iteration breaks out of the loop. -/
theorem blv_decode_terminates (data : List Nat) (k : Int) (v rest : List Nat)
    (h : blv_decodeStep data = some (k, v, rest)) :
    rest.length < data.length :=
  blv_decodeStep_shrinks data k v rest h

/-- Witness for `blv_decode_terminates` on the encoding of `{1 ↦ [9, 8]}`. -/
theorem blv_decode_terminates_witness :
    ([] : List Nat).length < [1, 117, 55, 29, 211, 9, 8].length :=
  blv_decode_terminates [1, 117, 55, 29, 211, 9, 8] 1 [9, 8] [] (by decide)

/-- C10: `blv_encode` writes each record's tag as the key reduced modulo
256 (the `b as u8` cast): the head byte of every record is `key mod 256`;
every key of the decoded map lies in `[0, 256)`, so a map key outside that
range reappears at `key mod 256` and not at itself; and two keys congruent
modulo 256 produce records with the same tag byte, colliding in the
decoded map. -/
theorem blv_encode_key_mod (l : BlvMap)
    (hlen : ∀ p ∈ l, ((p.2).length : Int) < 2147483648) :
    (∀ p ∈ l, (encodeRecord p.1 p.2).head? = some (p.1 % 256).toNat) ∧
    (∀ k : Int, alGet (blv_decode (blv_encodeList l)) k ≠ none →
      0 ≤ k ∧ k < 256) ∧
    (∀ p ∈ l, ¬(0 ≤ p.1 ∧ p.1 < 256) →
      alGet (blv_decode (blv_encodeList l)) p.1 = none ∧
      alGet (blv_decode (blv_encodeList l)) (p.1 % 256) ≠ none) ∧
    (∀ p ∈ l, ∀ q ∈ l, p.1 % 256 = q.1 % 256 →
      (encodeRecord p.1 p.2).head? = (encodeRecord q.1 q.2).head?) := by
  refine ⟨fun p _ => by simp [encodeRecord], ?_, ?_, ?_⟩
  · intro k hne
    rw [alGet_blv_decode_encodeList l k hlen] at hne
    obtain ⟨v, hv⟩ := Option.ne_none_iff_exists.mp hne
    obtain ⟨p, -, hpk, -⟩ := lastTagLookup_mem l k v hv.symm
    rw [← hpk]
    exact ⟨Int.emod_nonneg p.1 (by norm_num),
      Int.emod_lt_of_pos p.1 (by norm_num)⟩
  · intro p hp hout
    constructor
    · rw [alGet_blv_decode_encodeList l p.1 hlen]
      apply lastTagLookup_eq_none
      intro q _
      have h1 := Int.emod_nonneg q.1 (show (256 : Int) ≠ 0 by norm_num)
      have h2 := Int.emod_lt_of_pos q.1 (show (0 : Int) < 256 by norm_num)
      intro hc
      exact hout (by omega)
    · rw [alGet_blv_decode_encodeList l (p.1 % 256) hlen]
      exact lastTagLookup_ne_none_of_mem l p hp
  · intro p _ q _ hpq
    simp [encodeRecord, hpq]

/-- Witness for `blv_encode_key_mod` on the one-entry map `{300 ↦ [5]}`:
the record's tag byte is 44 = 300 mod 256, the decoded map has no entry at
300, and it does have one at 44. -/
theorem blv_encode_key_mod_witness :
    (encodeRecord 300 [5]).head? = some 44 ∧
    alGet (blv_decode (blv_encodeList [((300 : Int), [5])])) 300 = none ∧
    alGet (blv_decode (blv_encodeList [((300 : Int), [5])])) 44 ≠ none := by
  have h := blv_encode_key_mod [((300 : Int), [5])] (by decide)
  refine ⟨?_, ?_, ?_⟩
  · have h1 := h.1 ((300 : Int), [5]) (by simp)
    rw [h1]
    decide
  · exact (h.2.2.1 ((300 : Int), [5]) (by simp) (by decide)).1
  · have h3 := (h.2.2.1 ((300 : Int), [5]) (by simp) (by decide)).2
    have h44 : ((300 : Int) % 256) = 44 := by decide
    rw [h44] at h3
    exact h3

/-! ## Dispatcher (src/commands.rs)

The command handlers are modelled over the outcomes of their external
interactions (address parsing, TCP connect, Session calls), which the
dispatcher cannot influence.  Reply maps use the `BlvMap` model above;
the Rust code extracts `cmd`/`mark` with `String::from_utf8_lossy`, and a
lossy-decoded string equals an ASCII literal exactly when the raw bytes
equal that literal's bytes, so commands are compared as byte strings. -/

def CONNECTcmd : List Nat := [67, 79, 78, 78, 69, 67, 84]

def FORWARDcmd : List Nat := [70, 79, 82, 87, 65, 82, 68]

def READcmd : List Nat := [82, 69, 65, 68]

def DISCONNECTcmd : List Nat := [68, 73, 83, 67, 79, 78, 78, 69, 67, 84]

def OKbytes : List Nat := [79, 75]

def FAILbytes : List Nat := [70, 65, 73, 76]

/-- ASCII bytes of "Session is closed". -/
def sessionClosedMsg : List Nat :=
  [83, 101, 115, 115, 105, 111, 110, 32, 105, 115, 32, 99, 108, 111, 115, 101, 100]

/-- ASCII bytes of "Session not found". -/
def sessionNotFoundMsg : List Nat :=
  [83, 101, 115, 115, 105, 111, 110, 32, 110, 111, 116, 32, 102, 111, 117, 110, 100]

/-- ASCII bytes of "No data provided". -/
def noDataMsg : List Nat :=
  [78, 111, 32, 100, 97, 116, 97, 32, 112, 114, 111, 118, 105, 100, 101, 100]

/-- ASCII bytes of "Invalid address: ". -/
def invalidAddrMsg : List Nat :=
  [73, 110, 118, 97, 108, 105, 100, 32, 97, 100, 100, 114, 101, 115, 115, 58, 32]

/-- ASCII bytes of "Send failed". -/
def sendFailedMsg : List Nat :=
  [83, 101, 110, 100, 32, 102, 97, 105, 108, 101, 100]

/-- `set_failure_response`: insert Status = FAIL, then Error = msg. -/
def set_failure_response (rinfo : BlvMap) (msg : List Nat) : BlvMap :=
  (5, msg) :: (4, FAILbytes) :: rinfo

/-- Events relevant to the registry-lock discipline, in program order. -/
inductive LockEvent where
  | acquire
  | release
  | sessionOp
  | netOp
deriving DecidableEq

/-- Result of a command handler: the reply map and the handler's trace of
lock / session / network events. -/
structure HandlerResult where
  rinfo : BlvMap
  events : List LockEvent
deriving DecidableEq

/-- Outcome of `handle_connect`'s external interactions. -/
inductive ConnectOutcome where
  | parseErr (msg : List Nat)
  | connectErr (msg : List Nat)
  | connected
deriving DecidableEq

/-- `handle_connect`: parse the target address (no lock); on success,
TCP-connect with a 3000 ms timeout (a network operation, before any lock);
on success, insert the session under a short-lived registry lock and set
Status OK; on either failure, set FAIL and the error message. -/
def handle_connect (out : ConnectOutcome) (rinfo : BlvMap) : HandlerResult :=
  match out with
  | ConnectOutcome.parseErr m =>
    ⟨set_failure_response rinfo (invalidAddrMsg ++ m), []⟩
  | ConnectOutcome.connectErr m =>
    ⟨set_failure_response rinfo m, [LockEvent.netOp]⟩
  | ConnectOutcome.connected =>
    ⟨(4, OKbytes) :: rinfo,
      [LockEvent.netOp, LockEvent.acquire, LockEvent.release]⟩

/-- `handle_forward`: takes the registry lock for the whole body.  With
the session present and a Data field, it calls `session.write_async`
while still holding the lock.  `writeRes` is `none` on Ok and carries the
stringified error on Err. -/
def handle_forward (present : Bool) (dataField : Option (List Nat))
    (writeRes : Option (List Nat)) (rinfo : BlvMap) : HandlerResult :=
  if present then
    match dataField with
    | some _ =>
      match writeRes with
      | none => ⟨(4, OKbytes) :: rinfo,
          [LockEvent.acquire, LockEvent.sessionOp, LockEvent.release]⟩
      | some emsg => ⟨set_failure_response rinfo emsg,
          [LockEvent.acquire, LockEvent.sessionOp, LockEvent.release]⟩
    | none => ⟨set_failure_response rinfo noDataMsg,
        [LockEvent.acquire, LockEvent.release]⟩
  else ⟨set_failure_response rinfo sessionNotFoundMsg,
    [LockEvent.acquire, LockEvent.release]⟩

/-- Result of `session.read_async()` as seen by `handle_read`. -/
inductive ReadOutcome where
  | ok (data : List Nat)
  | err
deriving DecidableEq

/-- `handle_read`: two short-lived registry locks (`contains_key`, then
`get(..).cloned()`); `present` abstracts both lookups succeeding.  With
the session present it calls `is_closed()` and, if open, `read_async()`,
both after the lock is released: closed at entry gives FAIL "Session is
closed"; otherwise Status is set to OK and `Ok(bytes)` inserts Data (even
empty) while `Err` only logs, leaving Data unset and Status OK. -/
def handle_read (present : Bool) (closedAtEntry : Bool)
    (readRes : ReadOutcome) (rinfo : BlvMap) : HandlerResult :=
  if present then
    if closedAtEntry then
      ⟨set_failure_response rinfo sessionClosedMsg,
        [LockEvent.acquire, LockEvent.release, LockEvent.acquire,
         LockEvent.release, LockEvent.sessionOp]⟩
    else
      match readRes with
      | ReadOutcome.ok d =>
        ⟨(1, d) :: (4, OKbytes) :: rinfo,
          [LockEvent.acquire, LockEvent.release, LockEvent.acquire,
           LockEvent.release, LockEvent.sessionOp, LockEvent.sessionOp]⟩
      | ReadOutcome.err =>
        ⟨(4, OKbytes) :: rinfo,
          [LockEvent.acquire, LockEvent.release, LockEvent.acquire,
           LockEvent.release, LockEvent.sessionOp, LockEvent.sessionOp]⟩
  else ⟨set_failure_response rinfo sessionNotFoundMsg,
    [LockEvent.acquire, LockEvent.release]⟩

/-- `handle_disconnect`: takes the registry lock, removes the mark, and —
if a session was present — calls `session.close()` while still holding
the lock; always sets Status OK. -/
def handle_disconnect (present : Bool) (rinfo : BlvMap) : HandlerResult :=
  if present then
    ⟨(4, OKbytes) :: rinfo,
      [LockEvent.acquire, LockEvent.sessionOp, LockEvent.release]⟩
  else ⟨(4, OKbytes) :: rinfo, [LockEvent.acquire, LockEvent.release]⟩

/-- The claimed lock discipline: scanning the trace with the current lock
depth, every session or network operation must occur with no lock held. -/
def disciplineOk : List LockEvent → Nat → Bool
  | [], _ => true
  | LockEvent.acquire :: rest, d => disciplineOk rest (d + 1)
  | LockEvent.release :: rest, d => disciplineOk rest (d - 1)
  | LockEvent.sessionOp :: rest, d => (d == 0) && disciplineOk rest d
  | LockEvent.netOp :: rest, d => (d == 0) && disciplineOk rest d

/-- Outcome of reading the HTTP request body in full. -/
inductive BodyRead where
  | failed
  | ok (data : List Nat)
deriving DecidableEq

/-- The dispatcher's response: the decoded HELLO cover page, or an encoded
reply frame carrying the reply map (which the Rust code then blv- and
base64-encodes into the body). -/
inductive DispatchResponse where
  | cover
  | frame (rinfo : BlvMap)
deriving DecidableEq

/-- Is the decoded command one of the four dispatch verbs? -/
def isKnownCmd (cmd : List Nat) : Bool :=
  cmd == CONNECTcmd || cmd == FORWARDcmd || cmd == READcmd ||
    cmd == DISCONNECTcmd

/-- `handle_request`: read the body (cover on failure or empty body),
base64-decode it (cover on failure or empty plaintext), blv-decode,
extract `cmd` (tag 2, default empty), and dispatch.  The four command
handlers are abstracted as a function from the command, the decoded frame,
and the registry to the new registry and the reply map; any other command
answers with the cover page, leaving the registry untouched. -/
def handle_request {α : Type} (handlers : List Nat → BlvMap → α → α × BlvMap)
    (body : BodyRead) (sessions : α) : DispatchResponse × α :=
  match body with
  | BodyRead.failed => (DispatchResponse.cover, sessions)
  | BodyRead.ok data =>
    if data.isEmpty then (DispatchResponse.cover, sessions)
    else
      match base64_decode data with
      | some out =>
        if out.isEmpty then (DispatchResponse.cover, sessions)
        else
          let info := blv_decode out
          let cmd := (alGet info 2).getD []
          if isKnownCmd cmd then
            let res := handlers cmd info sessions
            (DispatchResponse.frame res.2, res.1)
          else (DispatchResponse.cover, sessions)
      | none => (DispatchResponse.cover, sessions)

/-- The condition of claim C3: body read failed, or the body is empty, or
base64 decoding fails, or the plaintext is empty, or the decoded command
is none of CONNECT / FORWARD / READ / DISCONNECT. -/
def coverCondition (body : BodyRead) : Bool :=
  match body with
  | BodyRead.failed => true
  | BodyRead.ok data =>
    data.isEmpty ||
      match base64_decode data with
      | some out =>
        out.isEmpty || !(isKnownCmd ((alGet (blv_decode out) 2).getD []))
      | none => true

/-- C3: the dispatcher answers with the decoded HELLO cover page (and no
encoded reply frame) exactly when the body read fails, the body is empty,
base64 decoding fails, the plaintext is empty, or the decoded command is
unknown; in all of those cases the session registry is left unchanged,
whatever the four handlers would do. -/
theorem dispatch_cover_iff {α : Type}
    (handlers : List Nat → BlvMap → α → α × BlvMap) (body : BodyRead)
    (sessions : α) :
    ((handle_request handlers body sessions).1 = DispatchResponse.cover ↔
      coverCondition body = true) ∧
    (coverCondition body = true →
      (handle_request handlers body sessions).2 = sessions) := by
  cases body with
  | failed => simp [handle_request, coverCondition]
  | ok data =>
    by_cases hde : data.isEmpty
    · simp [handle_request, coverCondition, hde]
    · cases hdec : base64_decode data with
      | none => simp [handle_request, coverCondition, hde, hdec]
      | some out =>
        by_cases ho : out.isEmpty
        · simp [handle_request, coverCondition, hde, hdec, ho]
        · by_cases hc : isKnownCmd ((alGet (blv_decode out) 2).getD [])
          · simp [handle_request, coverCondition, hde, hdec, ho, hc]
          · simp [handle_request, coverCondition, hde, hdec, ho, hc]

/-- Witness for `dispatch_cover_iff`: the one-byte body `[1]` fails base64
decoding, so the response is the cover page and a counter registry is
untouched. -/
theorem dispatch_cover_iff_witness :
    (handle_request (fun _ _ (s : Nat) => (s + 1, ([] : BlvMap)))
      (BodyRead.ok [1]) 0).1 = DispatchResponse.cover ∧
    (handle_request (fun _ _ (s : Nat) => (s + 1, ([] : BlvMap)))
      (BodyRead.ok [1]) 0).2 = 0 :=
  ⟨(dispatch_cover_iff _ _ _).1.mpr (by decide),
   (dispatch_cover_iff _ _ _).2 (by decide)⟩

/-- C4: for a READ whose mark is present: if the session is closed at
entry, the reply has Status FAIL and Error "Session is closed"; otherwise
Status is OK and `session.read()`'s `Ok(bytes)` sets Data (even when
empty) while an `Err` leaves Data unset and the Status stays OK — no FAIL
is emitted for an error discovered during the read. -/
theorem read_reply_shape (closedAtEntry : Bool) (readRes : ReadOutcome) :
    (closedAtEntry = true →
      alGet (handle_read true closedAtEntry readRes []).rinfo 4 =
        some FAILbytes ∧
      alGet (handle_read true closedAtEntry readRes []).rinfo 5 =
        some sessionClosedMsg) ∧
    (closedAtEntry = false →
      alGet (handle_read true closedAtEntry readRes []).rinfo 4 =
        some OKbytes ∧
      alGet (handle_read true closedAtEntry readRes []).rinfo 5 = none ∧
      (∀ d, readRes = ReadOutcome.ok d →
        alGet (handle_read true closedAtEntry readRes []).rinfo 1 = some d) ∧
      (readRes = ReadOutcome.err →
        alGet (handle_read true closedAtEntry readRes []).rinfo 1 = none)) := by
  cases closedAtEntry <;> cases readRes <;>
    simp [handle_read, set_failure_response, alGet]

/-- Witness for `read_reply_shape`: an open session whose read returns
empty bytes gets Status OK and an (empty) Data field. -/
theorem read_reply_shape_witness :
    alGet (handle_read true false (ReadOutcome.ok []) []).rinfo 4 =
      some OKbytes ∧
    alGet (handle_read true false (ReadOutcome.ok []) []).rinfo 1 =
      some [] :=
  ⟨((read_reply_shape false (ReadOutcome.ok [])).2 rfl).1,
   ((read_reply_shape false (ReadOutcome.ok [])).2 rfl).2.2.1 [] rfl⟩

/-- C7: every reply map produced by a dispatch branch (starting from the
dispatcher's empty reply map) carries Status OK or FAIL, and carries an
Error field only when the Status is FAIL. -/
theorem reply_status_invariant (out : ConnectOutcome)
    (present closedAtEntry : Bool) (dataField : Option (List Nat))
    (writeRes : Option (List Nat)) (readRes : ReadOutcome) :
    ((alGet (handle_connect out []).rinfo 4 = some OKbytes ∨
      alGet (handle_connect out []).rinfo 4 = some FAILbytes) ∧
     (alGet (handle_connect out []).rinfo 5 ≠ none →
      alGet (handle_connect out []).rinfo 4 = some FAILbytes)) ∧
    ((alGet (handle_forward present dataField writeRes []).rinfo 4 =
        some OKbytes ∨
      alGet (handle_forward present dataField writeRes []).rinfo 4 =
        some FAILbytes) ∧
     (alGet (handle_forward present dataField writeRes []).rinfo 5 ≠ none →
      alGet (handle_forward present dataField writeRes []).rinfo 4 =
        some FAILbytes)) ∧
    ((alGet (handle_read present closedAtEntry readRes []).rinfo 4 =
        some OKbytes ∨
      alGet (handle_read present closedAtEntry readRes []).rinfo 4 =
        some FAILbytes) ∧
     (alGet (handle_read present closedAtEntry readRes []).rinfo 5 ≠ none →
      alGet (handle_read present closedAtEntry readRes []).rinfo 4 =
        some FAILbytes)) ∧
    ((alGet (handle_disconnect present []).rinfo 4 = some OKbytes ∨
      alGet (handle_disconnect present []).rinfo 4 = some FAILbytes) ∧
     (alGet (handle_disconnect present []).rinfo 5 ≠ none →
      alGet (handle_disconnect present []).rinfo 4 = some FAILbytes)) := by
  refine ⟨?_, ?_, ?_, ?_⟩
  · cases out <;> simp [handle_connect, set_failure_response, alGet]
  · cases present <;> cases dataField <;> cases writeRes <;>
      simp [handle_forward, set_failure_response, alGet]
  · cases present <;> cases closedAtEntry <;> cases readRes <;>
      simp [handle_read, set_failure_response, alGet]
  · cases present <;> simp [handle_disconnect, alGet]

/-- Witness for `reply_status_invariant`: a READ on a closed session has
an Error field, and therefore Status FAIL. -/
theorem reply_status_invariant_witness :
    alGet (handle_read true true ReadOutcome.err []).rinfo 5 ≠ none ∧
    alGet (handle_read true true ReadOutcome.err []).rinfo 4 =
      some FAILbytes :=
  ⟨by decide,
   (reply_status_invariant ConnectOutcome.connected true true none none
     ReadOutcome.err).2.2.1.2 (by decide)⟩

/-- C8 counterexample: the registry lock is NOT released before every
Session call — `handle_forward` (session present, data provided) calls
`Session::write_async` inside the lock scope, and `handle_disconnect`
(session present) calls `Session::close` inside the lock scope. -/
theorem lock_discipline_counterexample :
    disciplineOk (handle_forward true (some [1]) none []).events 0 = false ∧
    disciplineOk (handle_disconnect true []).events 0 = false := by decide

/-- C8 (amended): the lock-discipline claim holds for `handle_connect` and
`handle_read`, but `handle_forward` holds the registry lock across the
Session write exactly when the session is present and data was provided,
and `handle_disconnect` holds it across the Session close exactly when
the session is present. -/
theorem lock_discipline_amended (out : ConnectOutcome)
    (present closedAtEntry : Bool) (dataField : Option (List Nat))
    (writeRes : Option (List Nat)) (readRes : ReadOutcome) (rinfo : BlvMap) :
    disciplineOk (handle_connect out rinfo).events 0 = true ∧
    disciplineOk (handle_read present closedAtEntry readRes rinfo).events 0 =
      true ∧
    disciplineOk (handle_forward present dataField writeRes rinfo).events 0 =
      !(present && dataField.isSome) ∧
    disciplineOk (handle_disconnect present rinfo).events 0 = !present := by
  refine ⟨?_, ?_, ?_, ?_⟩
  · cases out <;> rfl
  · cases present <;> cases closedAtEntry <;> cases readRes <;> rfl
  · cases present <;> cases dataField <;> cases writeRes <;> rfl
  · cases present <;> rfl

/-! ## Session (src/session.rs)

A `Session` owns the `closed` flag, the write-inbox channel (`tx` /
`rx_write`, drained by the writer worker) and the read-outbox channel
(`tx_buffer` / `rx_buffer`, filled by the reader worker).  Each public
operation and each worker-loop iteration is modelled as a transition on
this state; the outcomes of channel and socket interactions that other
tasks control are explicit parameters. -/

/-- The `NeoError` variants produced by Session operations. -/
inductive NeoErrorModel where
  | sessionClosed
  | other (msg : List Nat)
deriving DecidableEq

/-- State of one `Session`. -/
structure SessionState where
  closed : Bool
  wbuf : List (List Nat)
  rbuf : List (List Nat)
deriving DecidableEq

/-- FIFO concatenation of the buffered chunks, as `read_async`'s
`all_data.extend(data)` drain loop produces it. -/
def concatChunks : List (List Nat) → List Nat
  | [] => []
  | c :: rest => c ++ concatChunks rest

/-- `Session::write_async`: fail with SessionClosed when closed; otherwise
enqueue into the write inbox.  `sendOk` abstracts `tx.send` succeeding
(it fails only when the writer worker is gone); on failure the session is
marked closed and `Other("Send failed")` is returned. -/
def write_async (s : SessionState) (data : List Nat) (sendOk : Bool) :
    SessionState × Option NeoErrorModel :=
  if s.closed then (s, some NeoErrorModel.sessionClosed)
  else if sendOk then ({ s with wbuf := s.wbuf ++ [data] }, none)
  else ({ s with closed := true }, some (NeoErrorModel.other sendFailedMsg))

/-- Outcome of the 10 ms `timeout(rx.recv())` wait inside `read_async`. -/
inductive RecvOutcome where
  | newChunk (data : List Nat)
  | senderGone
  | timedOut
deriving DecidableEq

/-- `Session::read_async`: snapshot `closed`, drain all buffered chunks;
if nothing was buffered and the snapshot was open, wait up to 10 ms for
one chunk (`w` is that wait's outcome — a chunk, the channel closing, or
the timeout); finally fail with SessionClosed iff the snapshot was closed
and nothing was collected. -/
def read_async (s : SessionState) (w : RecvOutcome) :
    SessionState × Except NeoErrorModel (List Nat) :=
  let closedSnap := s.closed
  let drained := concatChunks s.rbuf
  let s1 : SessionState := { s with rbuf := [] }
  if drained.isEmpty && !closedSnap then
    match w with
    | RecvOutcome.newChunk d => (s1, Except.ok d)
    | RecvOutcome.senderGone =>
      ({ s1 with closed := true }, Except.error NeoErrorModel.sessionClosed)
    | RecvOutcome.timedOut => (s1, Except.ok [])
  else if closedSnap && drained.isEmpty then
    (s1, Except.error NeoErrorModel.sessionClosed)
  else (s1, Except.ok drained)

/-- `Session::close`. -/
def Session.close (s : SessionState) : SessionState := { s with closed := true }

/-- `Session::is_closed`. -/
def is_closed (s : SessionState) : Bool := s.closed

/-- Result of `stream.read` in the reader worker: `readOk []` is a clean
EOF (`n == 0`). -/
inductive UpstreamRead where
  | readOk (data : List Nat)
  | readErr
deriving DecidableEq

/-- One iteration of the reader worker: exit when closed; on EOF or a read
error set `closed`; on data, push the chunk to the read outbox, setting
`closed` when the push fails (`pushOk` abstracts `tx_buffer.send`). -/
def readerStep (s : SessionState) (ev : UpstreamRead) (pushOk : Bool) :
    SessionState :=
  if s.closed then s
  else
    match ev with
    | UpstreamRead.readOk data =>
      if data.isEmpty then { s with closed := true }
      else if pushOk then { s with rbuf := s.rbuf ++ [data] }
      else { s with closed := true }
    | UpstreamRead.readErr => { s with closed := true }

/-- One iteration of the writer worker: pop a chunk from the write inbox;
exit (dropping the chunk) when closed; otherwise `write_all`, setting
`closed` on a write error (`writeOk` abstracts the write succeeding). -/
def writerStep (s : SessionState) (writeOk : Bool) : SessionState :=
  match s.wbuf with
  | [] => s
  | _ :: rest =>
    if s.closed then { s with wbuf := rest }
    else if writeOk then { s with wbuf := rest }
    else { s with wbuf := rest, closed := true }

/-- C5: the `closed` flag is monotonic — no Session operation
(`write_async`, `read_async`, `close`, `is_closed`) and no worker-loop
iteration ever resets it from true to false; once closed, `write_async`
returns SessionClosed, and `read_async` returns the concatenation of the
already-buffered chunks, or SessionClosed once the buffer is empty. -/
theorem session_closed_monotonic :
    (∀ (s : SessionState) (d : List Nat) (ok : Bool), s.closed = true →
      (write_async s d ok).1.closed = true ∧
      (write_async s d ok).2 = some NeoErrorModel.sessionClosed) ∧
    (∀ (s : SessionState) (w : RecvOutcome), s.closed = true →
      (read_async s w).1.closed = true) ∧
    (∀ s : SessionState, (Session.close s).closed = true ∧
      is_closed s = s.closed) ∧
    (∀ (s : SessionState) (ev : UpstreamRead) (ok : Bool), s.closed = true →
      (readerStep s ev ok).closed = true) ∧
    (∀ (s : SessionState) (ok : Bool), s.closed = true →
      (writerStep s ok).closed = true) ∧
    (∀ (s : SessionState) (w : RecvOutcome), s.closed = true →
      (read_async s w).2 =
        (if (concatChunks s.rbuf).isEmpty then
          Except.error NeoErrorModel.sessionClosed
        else Except.ok (concatChunks s.rbuf)) ∧
      (read_async s w).1.rbuf = []) := by
  refine ⟨?_, ?_, ?_, ?_, ?_, ?_⟩
  · intro s d ok h
    simp [write_async, h]
  · intro s w h
    cases w <;> by_cases he : (concatChunks s.rbuf).isEmpty <;>
      simp [read_async, h, he]
  · intro s
    exact ⟨rfl, rfl⟩
  · intro s ev ok h
    simp [readerStep, h]
  · intro s ok h
    cases hw : s.wbuf <;> simp [writerStep, hw, h]
  · intro s w h
    cases w <;> by_cases he : (concatChunks s.rbuf).isEmpty <;>
      simp [read_async, h, he]

/-- Witness for `session_closed_monotonic` on a closed session with one
buffered chunk `[1, 2]`: a write fails with SessionClosed, and a read
still drains the chunk. -/
theorem session_closed_monotonic_witness :
    (write_async ⟨true, [], [[1, 2]]⟩ [3] true).2 =
      some NeoErrorModel.sessionClosed ∧
    (read_async ⟨true, [], [[1, 2]]⟩ RecvOutcome.timedOut).2 =
      Except.ok [1, 2] := by
  refine ⟨(session_closed_monotonic.1 ⟨true, [], [[1, 2]]⟩ [3] true rfl).2, ?_⟩
  have h := (session_closed_monotonic.2.2.2.2.2 ⟨true, [], [[1, 2]]⟩
    RecvOutcome.timedOut rfl).1
  rw [h]
  rfl

end NeoGeorg
